import Mathlib

/-!
# Verification of EulerCPP core numerics

Shallow embedding of the numerically relevant kernels of the EulerCPP
finite-volume Euler solver, together with proofs of the specified
properties.

Modelling conventions:
* C++ `double` values are modelled as exact rationals (`ℚ`) in the purely
  arithmetic kernels (limiters, MUSCL reconstruction, corrections,
  boundary flux assembly, solution update), and as real numbers (`ℝ`)
  where `sqrt` / trigonometric functions occur (Riemann solvers,
  timestep computation, boundary-state initialization).
* Potentially out-of-range container accesses are modelled by
  `Option`-returning lookups; an access with a negative index yields
  `none`.
* Loops over faces / neighbors become structural recursion or folds over
  lists, mirroring the iteration order of the source.
-/

namespace EulerCPP

/-! ## Limiter functions (include/eulercpp/math/limiters.hpp) -/

namespace Limiters

/-- The `minmod` limiter, from `limiters.hpp`:
`return (rf < 1.0) ? 1.0 : 1.0 / rf;` -/
def minmod (rf : ℚ) : ℚ :=
  if rf < 1 then 1 else 1 / rf

/-- The `superbee` limiter, from `limiters.hpp`:
`if (rf < 0.5) return 2.0;`
`return std::max(std::min(2.0 / rf, 1.0), std::min(1.0 / rf, 2.0));` -/
def superbee (rf : ℚ) : ℚ :=
  if rf < 1/2 then 2 else max (min (2 / rf) 1) (min (1 / rf) 2)

/-- The `vanleer` limiter, from `limiters.hpp`: `return 2.0 / (rf + 1.0);` -/
def vanleer (rf : ℚ) : ℚ :=
  2 / (rf + 1)

/-- The `venkatakrishnan` limiter, from `limiters.hpp`:
`return (2.0 * rf + 1.0) / (rf * (2.0 * rf + 1.0) + 1.0);` -/
def venkatakrishnan (rf : ℚ) : ℚ :=
  (2 * rf + 1) / (rf * (2 * rf + 1) + 1)

/-- The `modified_venkatakrishnan` limiter, from `limiters.hpp`:
`return (rf * (2.0 * rf + 1.0) + 1.0) /`
`       (rf * (rf * (2.0 * rf + 1.0) + 1.0) + 1.0);` -/
def modified_venkatakrishnan (rf : ℚ) : ℚ :=
  (rf * (2 * rf + 1) + 1) / (rf * (rf * (2 * rf + 1) + 1) + 1)

end Limiters

open Limiters

/-! ## MUSCL reconstruction (reconstruction.cpp, per-element kernel)

The outer loops of `muscl_reconstruction` over elements `i` and variables
`v` are data-parallel and independent; the embedding below is the loop
body for one element and one variable.  Cell values of the other elements
enter through `Wc`, the gradient through `grad`, and the element's
per-face data through the lists `nbrs` (`elem.neighbors`) and `df`
(`elem.df`). -/

namespace Muscl

/-- A 3D vector of rationals, standing for `math::Vector3D`. -/
def Vec3 : Type := ℚ × ℚ × ℚ

/-- The function `math::dot_product` from `vectors.cpp`:
`return a[0] * b[0] + a[1] * b[1] + a[2] * b[2];` -/
def dot_product (a b : Vec3) : ℚ :=
  a.1 * b.1 + a.2.1 * b.2.1 + a.2.2 * b.2.2

/-- Envelope maximum `Wmax`: fold of
`for f: n = neighbors[f]; if (n < 0) continue; Wmax = max(Wmax, W(n,v))`,
starting from the element's own value `W`. -/
def envMax (Wc : ℤ → ℚ) (W : ℚ) (nbrs : List ℤ) : ℚ :=
  nbrs.foldl (fun acc n => if n < 0 then acc else max acc (Wc n)) W

/-- Envelope minimum `Wmin`, the `min` counterpart of `envMax`. -/
def envMin (Wc : ℤ → ℚ) (W : ℚ) (nbrs : List ℤ) : ℚ :=
  nbrs.foldl (fun acc n => if n < 0 then acc else min acc (Wc n)) W

/-- The limiter loop of `muscl_reconstruction`, carrying the accumulator
`alpha`.  Mirrors

`for f: Df = dot(gradW, df[f]);`
`  if ((Df >= 0 && Dmax < 1e-5) || (Df <= 0 && Dmin > -1e-5))`
`    { alpha = 0; break; }`
`  rf = (Df > 0) ? Df / Dmax : Df / Dmin;`
`  alpha = min(alpha, limiter(rf));` -/
def alphaLoop (lim : ℚ → ℚ) (grad : Vec3) (Dmax Dmin : ℚ) :
    List Vec3 → ℚ → ℚ
  | [], alpha => alpha
  | d :: rest, alpha =>
      let Df := dot_product grad d
      if (0 ≤ Df ∧ Dmax < 1/100000) ∨ (Df ≤ 0 ∧ Dmin > -(1/100000)) then 0
      else
        alphaLoop lim grad Dmax Dmin rest
          (min alpha (lim (if 0 < Df then Df / Dmax else Df / Dmin)))

/-- Per-element, per-variable body of `muscl_reconstruction`: computes the
envelope, the shared limiter factor `alpha` (starting from `1.0`), and
returns the reconstructed face values
`Wf = W + alpha * dot(gradW, df[f])`, one per face. -/
def muscl_reconstruction (lim : ℚ → ℚ) (Wc : ℤ → ℚ) (W : ℚ)
    (nbrs : List ℤ) (grad : Vec3) (df : List Vec3) : List ℚ :=
  let Dmax := envMax Wc W nbrs - W
  let Dmin := envMin Wc W nbrs - W
  let alpha := alphaLoop lim grad Dmax Dmin df 1
  df.map (fun d => W + alpha * dot_product grad d)

/-- A limiter keeps the reconstruction inside the neighbor envelope when
it is nonnegative and satisfies `r * lim r ≤ 1` on nonnegative ratios. -/
def EnvelopeSafe (lim : ℚ → ℚ) : Prop :=
  ∀ r : ℚ, 0 ≤ r → 0 ≤ lim r ∧ r * lim r ≤ 1

end Muscl

/-! ## Riemann solvers (riemann.cpp)

The three selectable flux functions operate on states already rotated
into the face-local frame: component 0 is density, component 1 the
normal momentum, components 2 and 3 the tangential momenta, component 4
the total energy.  Doubles are modelled as real numbers because the
sound speed uses `std::sqrt`. -/

/-- A 5-component array, standing for the `double[5]` state and flux
arrays of the solver. -/
structure Vec5 (α : Type) where
  x0 : α
  x1 : α
  x2 : α
  x3 : α
  x4 : α
deriving DecidableEq, Repr

/-- Component access, indexing a `Vec5` like the C arrays `W[v]`. -/
def Vec5.get {α : Type} (w : Vec5 α) : Fin 5 → α
  | 0 => w.x0
  | 1 => w.x1
  | 2 => w.x2
  | 3 => w.x3
  | 4 => w.x4

/-- Build a `Vec5` from a component function, standing for the
`for (v = 0; v < 5; ++v)` assignment loops. -/
def Vec5.ofFn {α : Type} (f : Fin 5 → α) : Vec5 α :=
  ⟨f 0, f 1, f 2, f 3, f 4⟩

namespace Riemann

/-- The pressure computed identically at the top of `rusanov`, `hll` and
`hllc`: `p = (gam-1.0)*(E-0.5*rho*(un*un+ut1*ut1+ut2*ut2))` with the
velocities recovered from the conservative state. -/
noncomputable def praw (gam : ℝ) (W : Vec5 ℝ) : ℝ :=
  let rho := W.x0
  let un := W.x1 / rho
  let ut1 := W.x2 / rho
  let ut2 := W.x3 / rho
  (gam - 1) * (W.x4 - (1/2) * rho * (un * un + ut1 * ut1 + ut2 * ut2))

/-- The defensive pressure floor `if (p < 0) p = 1.0e-14;` applied by all
three solvers. -/
noncomputable def pclamped (gam : ℝ) (W : Vec5 ℝ) : ℝ :=
  if praw gam W < 0 then 1 / 10 ^ 14 else praw gam W

/-- Sound speed `a = std::sqrt(gam * p / rho)` (with the clamped
pressure), as computed in all three solvers. -/
noncomputable def soundSpeed (gam : ℝ) (W : Vec5 ℝ) : ℝ :=
  Real.sqrt (gam * pclamped gam W / W.x0)

/-- The one-sided physical flux array `FL` (resp. `FR`) built inside all
three solvers, using the clamped pressure:
`{rho*un, rho*un*un + p, rho*un*ut1, rho*un*ut2, (E + p)*un}`. -/
noncomputable def physFlux (gam : ℝ) (W : Vec5 ℝ) : Vec5 ℝ :=
  let rho := W.x0
  let un := W.x1 / rho
  let ut1 := W.x2 / rho
  let ut2 := W.x3 / rho
  let p := pclamped gam W
  ⟨rho * un, rho * un * un + p, rho * un * ut1, rho * un * ut2,
    (W.x4 + p) * un⟩

/-- The `rusanov` solver from `riemann.cpp`:
`S = max(|unL| + aL, |unR| + aR);`
`F[v] = 0.5*(FL[v]+FR[v]) - 0.5*S*(WR[v]-WL[v]);` -/
noncomputable def rusanov (WL WR : Vec5 ℝ) (gam : ℝ) : Vec5 ℝ :=
  let FL := physFlux gam WL
  let FR := physFlux gam WR
  let S := max (|WL.x1 / WL.x0| + soundSpeed gam WL)
               (|WR.x1 / WR.x0| + soundSpeed gam WR)
  Vec5.ofFn fun v =>
    (1/2) * (FL.get v + FR.get v) - (1/2) * S * (WR.get v - WL.get v)

/-- The `hll` solver from `riemann.cpp`:
`SL = min(unL,unR) - max(aL,aR); SR = max(unL,unR) + max(aL,aR);`
then upwind on the sign of `SL`/`SR`, with the two-wave average inside
the fan. -/
noncomputable def hll (WL WR : Vec5 ℝ) (gam : ℝ) : Vec5 ℝ :=
  let FL := physFlux gam WL
  let FR := physFlux gam WR
  let SL := min (WL.x1 / WL.x0) (WR.x1 / WR.x0) -
            max (soundSpeed gam WL) (soundSpeed gam WR)
  let SR := max (WL.x1 / WL.x0) (WR.x1 / WR.x0) +
            max (soundSpeed gam WL) (soundSpeed gam WR)
  if 0 < SL then FL
  else if SR < 0 then FR
  else
    Vec5.ofFn fun v =>
      ((SR * FL.get v - SL * FR.get v) + SL * SR * (WR.get v - WL.get v)) /
        (SR - SL)

/-- The `hllc` solver from `riemann.cpp`: the HLL wave speeds plus the contact wave
`SM` and intermediate pressure `pM`, with
`D = {0, 1, 0, 0, SM}` and the starred states on either side of the
contact. -/
noncomputable def hllc (WL WR : Vec5 ℝ) (gam : ℝ) : Vec5 ℝ :=
  let FL := physFlux gam WL
  let FR := physFlux gam WR
  let unL := WL.x1 / WL.x0
  let unR := WR.x1 / WR.x0
  let pL := pclamped gam WL
  let pR := pclamped gam WR
  let SL := min unL unR - max (soundSpeed gam WL) (soundSpeed gam WR)
  let SR := max unL unR + max (soundSpeed gam WL) (soundSpeed gam WR)
  if 0 < SL then FL
  else if SR < 0 then FR
  else
    let SM := (pR - pL + WL.x1 * (SL - unL) - WR.x1 * (SR - unR)) /
              (WL.x0 * (SL - unL) - WR.x0 * (SR - unR))
    let pM := (1/2) * (pL + pR + WL.x0 * (SL - unL) * (SM - unL) +
                       WR.x0 * (SR - unR) * (SM - unR))
    let D : Vec5 ℝ := ⟨0, 1, 0, 0, SM⟩
    if 0 < SM then
      Vec5.ofFn fun v =>
        (SM * (SL * WL.get v - FL.get v) + SL * pM * D.get v) / (SL - SM)
    else
      Vec5.ofFn fun v =>
        (SM * (SR * WR.get v - FR.get v) + SR * pM * D.get v) / (SR - SM)

/-- The analytic Euler flux of a state `W` evaluated in the face-normal
frame, with the thermodynamic pressure `p = (γ-1)(E - ρ|u|²/2)`:
`(ρ un, ρ un² + p, ρ un ut1, ρ un ut2, (E + p) un)`. -/
noncomputable def eulerFlux (gam : ℝ) (W : Vec5 ℝ) : Vec5 ℝ :=
  let rho := W.x0
  let un := W.x1 / rho
  let ut1 := W.x2 / rho
  let ut2 := W.x3 / rho
  let p := praw gam W
  ⟨rho * un, rho * un * un + p, rho * un * ut1, rho * un * ut2,
    (W.x4 + p) * un⟩

end Riemann

/-! ## Solution corrections (corrections.cpp)

`apply_corrections` scans all elements for unphysical states and
replaces flagged states by neighbor averages of the previous-iteration
states.  NaN/Inf cannot occur in the exact-rational model, so the
`isnan`/`isinf` tests of the source are identically false here.  The
out-of-bounds vector access in the second-ring fallback (the source
reads `mesh.elements[n]` before checking `n < 0`) is modelled by an
`Option`-returning lookup that yields `none` for a negative index. -/

namespace Corrections

/-- The part of `Element` used by `apply_corrections`: the per-face
neighbor indices (`-1` at a boundary face). -/
structure Element where
  neighbors : List ℤ
deriving DecidableEq, Repr

/-- The part of `Mesh` used by `apply_corrections`: the element list and
the number of boundary faces (`mesh.n_boundaries`, counted in
`assign_boundaries` as the faces with `neighbor == -1`). -/
structure Mesh where
  elements : List Element
  n_boundaries : ℤ
deriving DecidableEq, Repr

/-- Modelling of `std::vector` indexing with a C++ `int` index: in range yields the
element, out of range (in particular a negative index) is undefined
behaviour, modelled as `none`. -/
def getElemZ (l : List Element) (n : ℤ) : Option Element :=
  if h : 0 ≤ n ∧ n.toNat < l.length then some (l.get ⟨n.toNat, h.2⟩)
  else none

/-- The kinetic-energy density
`K = 0.5*(W1*W1 + W2*W2 + W3*W3) / W0` computed in `apply_corrections`
(for the element itself and for each candidate neighbor). -/
def kin (W : Vec5 ℚ) : ℚ :=
  (1/2) * (W.x1 * W.x1 + W.x2 * W.x2 + W.x3 * W.x3) / W.x0

/-- The flagging test of `apply_corrections`:
`if (W(i,4) < K || W(i,0) < 0.0) corrected = true;` (the preceding
NaN/Inf test is identically false on exact rationals). -/
def flagged (W : Vec5 ℚ) : Bool :=
  W.x4 < kin W || W.x0 < 0

/-- The neighbor-acceptance test: a candidate `n` contributes unless
`Wold(n,0) < 0.0 || Wold(n,4) < Kn` (the preceding NaN/Inf test is
identically false on exact rationals). -/
def validState (W : Vec5 ℚ) : Bool :=
  !(W.x0 < 0 || W.x4 < kin W)

/-- The in-range, valid face neighbors of an element, in face order:
`n = neighbors[f]; if (n < 0) continue; if (!valid) continue;`.
The source repeats this filter once per variable `v`; it does not
depend on `v`. -/
def validNeighbors (Wold : ℤ → Vec5 ℚ) (nbrs : List ℤ) : List ℤ :=
  nbrs.filter fun n => decide (0 ≤ n) && validState (Wold n)

/-- The second-ring fallback loop (`den == 0` case): for each face
neighbor index `n` the source binds `mesh.elements[n]` and reads its
face count *before* testing `n < 0`, so the lookup itself can be out of
range; the result collects the valid neighbors-of-neighbors, or `none`
if a lookup faulted. -/
def secondRing (mesh : Mesh) (Wold : ℤ → Vec5 ℚ) :
    List ℤ → Option (List ℤ)
  | [] => some []
  | n :: rest =>
      match getElemZ mesh.elements n with
      | none => none
      | some elem_n =>
          if n < 0 then secondRing mesh Wold rest
          else
            match secondRing mesh Wold rest with
            | none => none
            | some tail =>
                some (validNeighbors Wold elem_n.neighbors ++ tail)

/-- The per-element body of the correction loop: a flagged element's
state is replaced, component by component, by
`correction / den` where `correction` sums the valid neighbors'
previous-iteration states (immediate neighbors, or the second ring when
no immediate neighbor contributed); an unflagged element keeps its
state. -/
def correctElement (mesh : Mesh) (W Wold : ℤ → Vec5 ℚ) (i : ℤ)
    (elem : Element) : Option (Vec5 ℚ) :=
  if flagged (W i) then
    let nbrs1 := validNeighbors Wold elem.neighbors
    if nbrs1.length ≠ 0 then
      some (Vec5.ofFn fun v =>
        (nbrs1.map fun n => (Wold n).get v).sum / (nbrs1.length : ℚ))
    else
      match secondRing mesh Wold elem.neighbors with
      | none => none
      | some nbrs2 =>
          some (Vec5.ofFn fun v =>
            (nbrs2.map fun n => (Wold n).get v).sum / (nbrs2.length : ℚ))
  else some (W i)

/-- The correction loop over all elements (`for i in 0..n_elements`),
propagating an out-of-bounds fault. -/
def correctList (mesh : Mesh) (W Wold : ℤ → Vec5 ℚ) :
    List Element → ℤ → Option (List (Vec5 ℚ))
  | [], _ => some []
  | e :: rest, i =>
      match correctElement mesh W Wold i e with
      | none => none
      | some w =>
          match correctList mesh W Wold rest (i + 1) with
          | none => none
          | some ws => some (w :: ws)

/-- The total number of corrections of one pass: one per flagged
element. -/
def countCorrections (W : ℤ → Vec5 ℚ) (n : ℕ) : ℕ :=
  ((List.range n).filter fun i => flagged (W i)).length

/-- Outcome of one `apply_corrections` call: an out-of-bounds vector
access (undefined behaviour), the thrown
`std::runtime_error("A floating point error has occurred.")`, or a
normal return with the new states and the correction count. -/
inductive CorrOutcome where
  | outOfBounds : CorrOutcome
  | fatalError : ℕ → CorrOutcome
  | ok : List (Vec5 ℚ) → ℕ → CorrOutcome
deriving DecidableEq, Repr

/-- The function `apply_corrections` from `corrections.cpp`: run the correction loop,
then `if (corrections > 0.1 * mesh.n_boundaries) throw`, else return
normally. -/
def apply_corrections (mesh : Mesh) (W Wold : ℤ → Vec5 ℚ) : CorrOutcome :=
  match correctList mesh W Wold mesh.elements 0 with
  | none => .outOfBounds
  | some Wnew =>
      let corrections := countCorrections W mesh.elements.length
      if (corrections : ℚ) > (1/10) * (mesh.n_boundaries : ℚ) then
        .fatalError corrections
      else
        .ok Wnew corrections

end Corrections

/-- Concrete two-element mesh for the correction witnesses: element 0
has neighbors `[1, -1]` (one interior, one boundary face), element 1 has
neighbor `[0]`; the mesh has 4 boundary faces. -/
def cMesh4 : Corrections.Mesh := ⟨[⟨[1, -1]⟩, ⟨[0]⟩], 4⟩

/-- Concrete current states: element 0 carries a negative density. -/
def cW4 : ℤ → Vec5 ℚ :=
  fun n => if n = 0 then ⟨-1, 0, 0, 0, 1⟩ else ⟨2, 0, 0, 0, 1⟩

/-- Concrete previous-iteration states: element 1 is valid with
positive density, everything else is invalid. -/
def cWold4 : ℤ → Vec5 ℚ :=
  fun n => if n = 1 then ⟨2, 0, 0, 0, 1⟩ else ⟨-1, 0, 0, 0, 1⟩

/-- Concrete mesh for C10: element 0 is flagged, has a boundary face
(neighbor `-1`) listed first, and no valid immediate neighbor, so the
second-ring fallback runs and its first step looks up
`mesh.elements[-1]`. -/
def cMesh10 : Corrections.Mesh := ⟨[⟨[-1, 1]⟩, ⟨[0]⟩], 20⟩

/-- Concrete current states for C10: every element flagged. -/
def cW10 : ℤ → Vec5 ℚ := fun _ => ⟨-1, 0, 0, 0, 0⟩

/-- Concrete previous-iteration states for C10: every state invalid, so
element 0 has no valid immediate neighbor. -/
def cWold10 : ℤ → Vec5 ℚ := fun _ => ⟨-1, 0, 0, 0, 0⟩

/-! ## Boundary conditions (boundaries.cpp, symmetry.cpp)

`apply_boundary_conditions` loops over boundary faces
(`face.opposite == -1`), dispatches on the boundary type, and scales all
five flux components of the face by the face area.  Only the branch
relevant to the wall aliases (which all call `bc::symmetry`) and the
`AXIS` branch (no boundary call) are modelled; the remaining boundary
functions are outside this development and their branches yield
`none`. -/

namespace Boundaries

/-- The enumeration `physics::BCType` from `load_bc.hpp` (codes 0–9). -/
inductive BCType where
  | SUPERSONIC_INLET
  | SUPERSONIC_OUTLET
  | STAGNATION_INLET
  | SUBSONIC_INLET
  | PRESSURE_OUTLET
  | WALL
  | SYMMETRY
  | SLIPWALL
  | MOVING_WALL
  | AXIS
deriving DecidableEq, Repr

/-- The geometric face data used by the wall treatment: area and unit
normal (`Face::area`, `Face::normal`). -/
structure Face where
  area : ℚ
  normal : ℚ × ℚ × ℚ
deriving DecidableEq, Repr

/-- The pressure computed in `bc::symmetry` from the reconstructed face
state, with the floor `if (p < 0) p = 1.0e-14;`. -/
def facePressure (gam : ℚ) (Wf : Vec5 ℚ) : ℚ :=
  let rho := Wf.x0
  let u := Wf.x1 / rho
  let v := Wf.x2 / rho
  let w := Wf.x3 / rho
  let p := (gam - 1) * (Wf.x4 - (1/2) * rho * (u * u + v * v + w * w))
  if p < 0 then 1 / 10 ^ 14 else p

/-- The function `bc::symmetry` from `symmetry.cpp`: writes only the three momentum
flux components `F(f,1..3) = p * n`, leaving `F(f,0)` and `F(f,4)`
untouched. -/
def symmetry (gam : ℚ) (face : Face) (Wf F : Vec5 ℚ) : Vec5 ℚ :=
  { F with
    x1 := facePressure gam Wf * face.normal.1,
    x2 := facePressure gam Wf * face.normal.2.1,
    x3 := facePressure gam Wf * face.normal.2.2 }

/-- The loop body of `apply_boundary_conditions` for one boundary face:
dispatch on the boundary type, then `F(f,v) *= face.area` for all five
components.  `MOVING_WALL`, `WALL`, `SLIPWALL` and `SYMMETRY` share the
`bc::symmetry` call; `AXIS` performs no boundary call; the other types
call boundary functions not modelled here (`none`). -/
def apply_bc_face (gam : ℚ) (t : BCType) (face : Face) (Wf F : Vec5 ℚ) :
    Option (Vec5 ℚ) :=
  match t with
  | .MOVING_WALL | .WALL | .SLIPWALL | .SYMMETRY =>
      let F' := symmetry gam face Wf F
      some (Vec5.ofFn fun v => F'.get v * face.area)
  | .AXIS => some (Vec5.ofFn fun v => F.get v * face.area)
  | _ => none

end Boundaries

/-! ## Solution update (solution_update.cpp)

`advance_solution` updates every element from the previous-iteration
snapshot `Wold` using the face fluxes and source terms, with the stage
coefficient selected by a stage counter that the C++ code keeps in the
function-local static `inner_iter`; the embedding threads that counter
explicitly. -/

namespace Update

/-- The element data used by `advance_solution`: the element's own face
indices and its volume. -/
structure Element where
  faces : List ℤ
  volume : ℚ
deriving DecidableEq, Repr

/-- The per-element body of `advance_solution`: for each variable,
`dF = Σ_f F(elem.faces[f], v)`, `b = S - dF` (the `isnan` guard of the
source is identically false on exact rationals), and
`W = Wold + a[s]*dt/volume * b`.  Returns `(b, W)`. -/
def elemAdvance (F : ℤ → Vec5 ℚ) (coef dt : ℚ) (Wold S : Vec5 ℚ)
    (elem : Element) : Vec5 ℚ × Vec5 ℚ :=
  let b := Vec5.ofFn fun v =>
    S.get v - (elem.faces.map fun j => (F j).get v).sum
  (b, Vec5.ofFn fun v =>
    Wold.get v + coef * dt / elem.volume * b.get v)

/-- The parallel-for over elements of `advance_solution`, with the
element index threaded for the per-element `Wold`/`S` rows. -/
def advanceList (F : ℤ → Vec5 ℚ) (coef dt : ℚ) (Wold S : ℕ → Vec5 ℚ) :
    List Element → ℕ → List (Vec5 ℚ × Vec5 ℚ)
  | [], _ => []
  | e :: rest, i =>
      elemAdvance F coef dt (Wold i) (S i) e ::
        advanceList F coef dt Wold S rest (i + 1)

/-- The function `advance_solution` from `solution_update.cpp`: advance every element
with the coefficient `a[inner_iter]`, then
`inner_iter = (inner_iter + 1) % time_stages`.  The result pairs the new
`(b, W)` rows with the new stage counter. -/
def advance_solution (elements : List Element) (Wold S : ℕ → Vec5 ℚ)
    (F : ℤ → Vec5 ℚ) (dt : ℚ) (a : List ℚ) (time_stages : ℕ)
    (inner_iter : ℕ) : List (Vec5 ℚ × Vec5 ℚ) × ℕ :=
  (advanceList F (a.getD inner_iter 0) dt Wold S elements 0,
   (inner_iter + 1) % time_stages)

end Update

/-- Concrete face fluxes for the C8 witness. -/
def cF8 : ℤ → Vec5 ℚ :=
  fun j => if j = 0 then ⟨1, 2, 3, 4, 5⟩ else ⟨5, 4, 3, 2, 1⟩

/-! ## Timestep computation (timestep.cpp)

`update_timestep` reduces, over all elements, the maximum of the local
wave-speed densities (per element: the maximum over its faces of
`face.area * (un + a)`, divided by the element volume), sets
`dt = CFL / var`, accumulates the simulation time and clamps it to the
configured maximum, shortening `dt` by the overshoot.  Doubles are
modelled as reals because of the sound-speed square root. -/

namespace Timestep

/-- The face data used by `update_timestep`: area and unit normal. -/
structure Face where
  area : ℝ
  normal : ℝ × ℝ × ℝ

/-- The element data used by `update_timestep`: the element's face
indices and its volume. -/
structure Element where
  faces : List ℤ
  volume : ℝ

/-- Sound speed of an element state, as computed in `update_timestep`:
`a = sqrt(gamma * p / rho)` with `p = (gamma-1)*(W4 - K)`. -/
noncomputable def sound (gam : ℝ) (W : Vec5 ℝ) : ℝ :=
  let rho := W.x0
  let u := W.x1 / rho
  let v := W.x2 / rho
  let w := W.x3 / rho
  let K := (1/2) * rho * (u * u + v * v + w * w)
  let p := (gam - 1) * (W.x4 - K)
  Real.sqrt (gam * p / rho)

/-- One face's contribution `face.area * (un + a)` with
`un = u*n[0] + v*n[1] + w*n[2]`. -/
noncomputable def faceSpeed (faces : ℤ → Face) (gam : ℝ) (W : Vec5 ℝ)
    (fi : ℤ) : ℝ :=
  let rho := W.x0
  let u := W.x1 / rho
  let v := W.x2 / rho
  let w := W.x3 / rho
  let n := (faces fi).normal
  let un := u * n.1 + v * n.2.1 + w * n.2.2
  (faces fi).area * (un + sound gam W)

/-- The per-element loop body: `l_max` starts at `0.0` and takes the
maximum of the face contributions; the local wave-speed density is
`l_max / elem.volume`. -/
noncomputable def elemSpeed (faces : ℤ → Face) (gam : ℝ) (W : Vec5 ℝ)
    (elem : Element) : ℝ :=
  (elem.faces.foldl (fun acc fi => max acc (faceSpeed faces gam W fi)) 0) /
    elem.volume

/-- The reduction over elements: the running maximum `var` starts at
`0.0` and takes the maximum of the per-element wave-speed densities
(the OpenMP thread-local maxima merged under the critical section are
order-independent and equal to this sequential fold). -/
noncomputable def varLoop (faces : ℤ → Face) (gam : ℝ) (W : ℕ → Vec5 ℝ) :
    List Element → ℕ → ℝ → ℝ
  | [], _, var => var
  | e :: rest, i, var =>
      varLoop faces gam W rest (i + 1)
        (max var (elemSpeed faces gam (W i) e))

/-- The function `update_timestep` from `timestep.cpp`: `dt = cfl / var`,
`time += dt`, and if the accumulated time exceeds `maxtime`, shorten
`dt` by the overshoot and clamp the time.  Returns `(dt, time)`. -/
noncomputable def update_timestep (elements : List Element)
    (faces : ℤ → Face) (gam : ℝ) (W : ℕ → Vec5 ℝ) (cfl time maxtime : ℝ) :
    ℝ × ℝ :=
  let var := varLoop faces gam W elements 0 0
  let dtconv := cfl / var
  let dt := dtconv
  let time' := time + dtconv
  if time' > maxtime then (dt - (time' - maxtime), maxtime)
  else (dt, time')

end Timestep

/-- Concrete one-element mesh for the C9 witness. -/
noncomputable def cElems9 : List Timestep.Element := [⟨[0], 1⟩]

/-- Concrete face table for the C9 witness: unit area, normal
`(1,0,0)`. -/
noncomputable def cFaces9 : ℤ → Timestep.Face := fun _ => ⟨1, (1, 0, 0)⟩

/-- Concrete states for the C9 witness: `ρ = 1`, `u = (1,0,0)`,
`E = 2`, so with `γ = 3` the pressure is `3` and the sound speed `3`. -/
noncomputable def cW9 : ℕ → Vec5 ℝ := fun _ => ⟨1, 1, 0, 0, 2⟩

/-! ## Supersonic inlet initialization (supersonic_inlet.cpp)

`init_supersonic_inlet` derives the fixed boundary state once at
initialization from the Mach number, static pressure, temperature and
two flow-direction angles (`bc.value[0..4]`).  Unlike
`init_stagnation_inlet` (which performs `bc.value[3] *= PI / 180.0;`
and likewise for `value[4]`), it takes `cos`/`sin` of the raw
configuration values, i.e. it treats the angles as radians, although
the configuration specifies all angles in degrees (README,
CHANGELOG 0.5.2). -/

namespace SupersonicInlet

open Real

/-- The function `init_supersonic_inlet` from `supersonic_inlet.cpp`, as written:
`V = M*sqrt(gamma*R*T); rho = p/R/T;`
`u = V*cos(alpha)*cos(phi); v = V*sin(alpha)*cos(phi); w = V*sin(phi);`
`E = p/(gamma-1) + 0.5*rho*V*V;` with the angles used as given. -/
noncomputable def init_supersonic_inlet (Rg gam : ℝ) (value : Vec5 ℝ) :
    Vec5 ℝ :=
  let M := value.x0
  let p := value.x1
  let T := value.x2
  let alpha := value.x3
  let phi := value.x4
  let V := M * Real.sqrt (gam * Rg * T)
  let rho := p / Rg / T
  ⟨rho, V * Real.cos alpha * Real.cos phi,
    V * Real.sin alpha * Real.cos phi, V * Real.sin phi,
    p / (gam - 1) + (1/2) * rho * V * V⟩

/-- Modelled from the spec: the supersonic-inlet state initialization
with the two flow-direction angles interpreted as degrees and converted
to radians before the direction cosines are taken (the conversion that
`init_stagnation_inlet` performs and the spec prescribes for both inlet
types). -/
noncomputable def init_supersonic_inlet_spec (Rg gam : ℝ) (value : Vec5 ℝ) :
    Vec5 ℝ :=
  let M := value.x0
  let p := value.x1
  let T := value.x2
  let alpha := value.x3 * π / 180
  let phi := value.x4 * π / 180
  let V := M * Real.sqrt (gam * Rg * T)
  let rho := p / Rg / T
  ⟨rho, V * Real.cos alpha * Real.cos phi,
    V * Real.sin alpha * Real.cos phi, V * Real.sin phi,
    p / (gam - 1) + (1/2) * rho * V * V⟩

end SupersonicInlet

/-! ## Theorems -/

/-- Claim C3: each of the five limiter functions (minmod, superbee, van Leer,
Venkatakrishnan, modified Venkatakrishnan), for every strictly positive
ratio input `rf`, returns a value in the closed interval `[0, 2]`;
moreover `minmod 1 = 1` and `superbee 0.25 = 2`. -/
theorem limiters_bounded_C3 (rf : ℚ) (h : 0 < rf) :
    (0 ≤ minmod rf ∧ minmod rf ≤ 2) ∧
    (0 ≤ superbee rf ∧ superbee rf ≤ 2) ∧
    (0 ≤ vanleer rf ∧ vanleer rf ≤ 2) ∧
    (0 ≤ venkatakrishnan rf ∧ venkatakrishnan rf ≤ 2) ∧
    (0 ≤ modified_venkatakrishnan rf ∧ modified_venkatakrishnan rf ≤ 2) ∧
    minmod 1 = 1 ∧ superbee (1/4) = 2 := by
  refine ⟨?_, ?_, ?_, ?_, ?_, by norm_num [minmod], by norm_num [superbee]⟩
  · unfold minmod
    split
    · norm_num
    · rename_i hge
      push_neg at hge
      constructor
      · positivity
      · have h1 : 1 / rf ≤ 1 := by
          rw [div_le_one h]
          exact hge
        linarith
  · unfold superbee
    split
    · norm_num
    · rename_i hge
      push_neg at hge
      have h2 : (0:ℚ) ≤ min (2 / rf) 1 := le_min (by positivity) (by norm_num)
      have h3 : min (1 / rf) 2 ≤ 2 := min_le_right _ _
      have h4 : min (2 / rf) 1 ≤ 2 := le_trans (min_le_right _ _) (by norm_num)
      exact ⟨le_trans h2 (le_max_left _ _), max_le h4 h3⟩
  · unfold vanleer
    have hden : (0:ℚ) < rf + 1 := by linarith
    constructor
    · positivity
    · rw [div_le_iff₀ hden]
      linarith
  · unfold venkatakrishnan
    have hden : (0:ℚ) < rf * (2 * rf + 1) + 1 := by nlinarith
    constructor
    · positivity
    · rw [div_le_iff₀ hden]
      nlinarith
  · unfold modified_venkatakrishnan
    have hcube : (0:ℚ) < rf * (rf * rf) := by positivity
    have hden : (0:ℚ) < rf * (rf * (2 * rf + 1) + 1) + 1 := by nlinarith
    constructor
    · positivity
    · rw [div_le_iff₀ hden]
      nlinarith

/-- Witness for C3: the bound holds at the concrete ratio `rf = 3`. -/
theorem limiters_bounded_C3_witness :
    (0 < (3:ℚ)) ∧
    ((0 ≤ minmod 3 ∧ minmod 3 ≤ 2) ∧
    (0 ≤ superbee 3 ∧ superbee 3 ≤ 2) ∧
    (0 ≤ vanleer 3 ∧ vanleer 3 ≤ 2) ∧
    (0 ≤ venkatakrishnan 3 ∧ venkatakrishnan 3 ≤ 2) ∧
    (0 ≤ modified_venkatakrishnan 3 ∧ modified_venkatakrishnan 3 ≤ 2) ∧
    minmod 1 = 1 ∧ superbee (1/4) = 2) :=
  ⟨by norm_num, limiters_bounded_C3 3 (by norm_num)⟩

namespace Muscl

theorem minmod_envelopeSafe : EnvelopeSafe Limiters.minmod := by
  intro r hr
  unfold Limiters.minmod
  split
  · constructor
    · norm_num
    · rename_i hlt
      linarith
  · rename_i hge
    push_neg at hge
    have hrpos : 0 < r := lt_of_lt_of_le one_pos hge
    constructor
    · positivity
    · rw [mul_one_div, div_le_one hrpos]

theorem venkatakrishnan_envelopeSafe : EnvelopeSafe Limiters.venkatakrishnan := by
  intro r hr
  unfold Limiters.venkatakrishnan
  have hden : (0:ℚ) < r * (2 * r + 1) + 1 := by nlinarith
  constructor
  · positivity
  · rw [mul_div_assoc', div_le_one hden]
    nlinarith

theorem modified_venkatakrishnan_envelopeSafe :
    EnvelopeSafe Limiters.modified_venkatakrishnan := by
  intro r hr
  unfold Limiters.modified_venkatakrishnan
  have hcube : (0:ℚ) ≤ r * (r * r) := by positivity
  have hden : (0:ℚ) < r * (r * (2 * r + 1) + 1) + 1 := by nlinarith
  constructor
  · positivity
  · rw [mul_div_assoc', div_le_one hden]
    nlinarith

/-- The limiter-loop accumulator never increases, and stays nonnegative,
for a limiter that is nonnegative on nonnegative ratios. -/
theorem alphaLoop_le_init (lim : ℚ → ℚ)
    (hlim : ∀ r : ℚ, 0 ≤ r → 0 ≤ lim r) (grad : Vec3) (Dmax Dmin : ℚ) :
    ∀ (df : List Vec3) (a : ℚ), 0 ≤ a →
      0 ≤ alphaLoop lim grad Dmax Dmin df a ∧
      alphaLoop lim grad Dmax Dmin df a ≤ a := by
  intro df
  induction df with
  | nil => intro a ha; exact ⟨ha, le_refl a⟩
  | cons d rest ih =>
      intro a ha
      rw [alphaLoop]
      split
      · exact ⟨le_refl 0, ha⟩
      · rename_i hnb
        push_neg at hnb
        set Df := dot_product grad d with hDf
        have hrf : 0 ≤ (if 0 < Df then Df / Dmax else Df / Dmin) := by
          split
          · rename_i hpos
            have hDmax : 1/100000 ≤ Dmax := hnb.1 (le_of_lt hpos)
            have : (0:ℚ) < Dmax := lt_of_lt_of_le (by norm_num) hDmax
            positivity
          · rename_i hnpos
            push_neg at hnpos
            have hDmin : Dmin ≤ -(1/100000) := hnb.2 hnpos
            exact div_nonneg_iff.mpr
              (Or.inr ⟨hnpos, le_trans hDmin (by norm_num)⟩)
        have hmin : 0 ≤ min a (lim (if 0 < Df then Df / Dmax else Df / Dmin)) :=
          le_min ha (hlim _ hrf)
        obtain ⟨h0, hle⟩ := ih _ hmin
        exact ⟨h0, le_trans hle (le_trans (min_le_left _ _) (le_refl a))⟩

/-- Every face's limited extrapolation stays inside `[Dmin, Dmax]` for an
envelope-safe limiter. -/
theorem alphaLoop_face_bound (lim : ℚ → ℚ) (hlim : EnvelopeSafe lim)
    (grad : Vec3) (Dmax Dmin : ℚ) (hDmax : 0 ≤ Dmax) (hDmin : Dmin ≤ 0) :
    ∀ (df : List Vec3) (a : ℚ), 0 ≤ a → ∀ d ∈ df,
      Dmin ≤ alphaLoop lim grad Dmax Dmin df a * dot_product grad d ∧
      alphaLoop lim grad Dmax Dmin df a * dot_product grad d ≤ Dmax := by
  have hlim0 : ∀ r : ℚ, 0 ≤ r → 0 ≤ lim r := fun r hr => (hlim r hr).1
  intro df
  induction df with
  | nil => intro a _ d hd; exact absurd hd (List.not_mem_nil d)
  | cons d0 rest ih =>
      intro a ha d hd
      rw [alphaLoop]
      split
      · simpa using ⟨hDmin, hDmax⟩
      · rename_i hnb
        push_neg at hnb
        set Df0 := dot_product grad d0 with hDf0
        set rf := (if 0 < Df0 then Df0 / Dmax else Df0 / Dmin) with hrfdef
        have hrf : 0 ≤ rf := by
          rw [hrfdef]
          split
          · rename_i hpos
            have hDmax' : 1/100000 ≤ Dmax := hnb.1 (le_of_lt hpos)
            have : (0:ℚ) < Dmax := lt_of_lt_of_le (by norm_num) hDmax'
            positivity
          · rename_i hnpos
            push_neg at hnpos
            have hDmin' : Dmin ≤ -(1/100000) := hnb.2 hnpos
            exact div_nonneg_iff.mpr
              (Or.inr ⟨hnpos, le_trans hDmin' (by norm_num)⟩)
        have hmin : 0 ≤ min a (lim rf) := le_min ha (hlim0 _ hrf)
        rcases List.mem_cons.mp hd with hd0 | hdr
        · subst hd0
          obtain ⟨hres0, hresle⟩ :=
            alphaLoop_le_init lim hlim0 grad Dmax Dmin rest _ hmin
          set res := alphaLoop lim grad Dmax Dmin rest (min a (lim rf)) with hres
          have hreslim : res ≤ lim rf := le_trans hresle (min_le_right _ _)
          rcases lt_or_le 0 Df0 with hpos | hnpos
          · have hDmax' : (0:ℚ) < Dmax :=
              lt_of_lt_of_le (by norm_num) (hnb.1 (le_of_lt hpos))
            have hrfval : rf = Df0 / Dmax := by rw [hrfdef, if_pos hpos]
            have hDfval : Df0 = rf * Dmax := by
              rw [hrfval, div_mul_cancel₀]
              exact ne_of_gt hDmax'
            constructor
            · exact le_trans hDmin (mul_nonneg hres0 (le_of_lt hpos))
            · calc res * Df0 = res * rf * Dmax := by rw [hDfval]; ring
                _ ≤ lim rf * rf * Dmax := by
                    have : res * rf ≤ lim rf * rf :=
                      mul_le_mul_of_nonneg_right hreslim hrf
                    exact mul_le_mul_of_nonneg_right this (le_of_lt hDmax')
                _ ≤ 1 * Dmax := by
                    have := (hlim rf hrf).2
                    have h1 : lim rf * rf ≤ 1 := by linarith [this]
                    exact mul_le_mul_of_nonneg_right h1 (le_of_lt hDmax')
                _ = Dmax := one_mul Dmax
          · have hDmin' : Dmin ≤ -(1/100000) := hnb.2 hnpos
            have hDminneg : Dmin < 0 := lt_of_le_of_lt hDmin' (by norm_num)
            have hrfval : rf = Df0 / Dmin := by
              rw [hrfdef, if_neg (not_lt.mpr hnpos)]
            have hDfval : Df0 = rf * Dmin := by
              rw [hrfval, div_mul_cancel₀]
              exact ne_of_lt hDminneg
            constructor
            · calc Dmin = 1 * Dmin := (one_mul Dmin).symm
                _ ≤ res * rf * Dmin := by
                    have h1 : res * rf ≤ 1 := by
                      calc res * rf ≤ lim rf * rf :=
                            mul_le_mul_of_nonneg_right hreslim hrf
                        _ ≤ 1 := by linarith [(hlim rf hrf).2]
                    exact mul_le_mul_of_nonpos_right h1 (le_of_lt hDminneg)
                _ = res * Df0 := by rw [hDfval]; ring
            · have : res * Df0 ≤ 0 :=
                mul_nonpos_of_nonneg_of_nonpos hres0 hnpos
              exact le_trans this hDmax
        · exact ih _ hmin d hdr

/-- The element's own value lies inside the fold computing `envMax`. -/
theorem le_envMax (Wc : ℤ → ℚ) (nbrs : List ℤ) :
    ∀ a : ℚ, a ≤ envMax Wc a nbrs := by
  unfold envMax
  induction nbrs with
  | nil => intro a; exact le_refl a
  | cons n rest ih =>
      intro a
      rw [List.foldl_cons]
      split
      · exact ih a
      · exact le_trans (le_max_left a (Wc n)) (ih _)

/-- The element's own value lies above the fold computing `envMin`. -/
theorem envMin_le (Wc : ℤ → ℚ) (nbrs : List ℤ) :
    ∀ a : ℚ, envMin Wc a nbrs ≤ a := by
  unfold envMin
  induction nbrs with
  | nil => intro a; exact le_refl a
  | cons n rest ih =>
      intro a
      rw [List.foldl_cons]
      split
      · exact ih a
      · exact le_trans (ih _) (min_le_left a (Wc n))

end Muscl

/-- Claim C2, amended: for every element, every variable, and every choice
of the minmod, Venkatakrishnan or modified-Venkatakrishnan limiter, MUSCL
reconstruction produces face values inside the local neighbor-extremum
envelope: each reconstructed face value lies between the minimum and the
maximum of the element's own cell value and its face-neighbor cell
values.  (The superbee and van Leer limiters can exceed the envelope,
see the counterexample.) -/
theorem muscl_envelope_C2 (lim : ℚ → ℚ)
    (hlim : lim = Limiters.minmod ∨ lim = Limiters.venkatakrishnan ∨
            lim = Limiters.modified_venkatakrishnan)
    (Wc : ℤ → ℚ) (W : ℚ) (nbrs : List ℤ) (grad : Muscl.Vec3)
    (df : List Muscl.Vec3) (x : ℚ)
    (hx : x ∈ Muscl.muscl_reconstruction lim Wc W nbrs grad df) :
    Muscl.envMin Wc W nbrs ≤ x ∧ x ≤ Muscl.envMax Wc W nbrs := by
  have hsafe : Muscl.EnvelopeSafe lim := by
    rcases hlim with h | h | h
    · rw [h]; exact Muscl.minmod_envelopeSafe
    · rw [h]; exact Muscl.venkatakrishnan_envelopeSafe
    · rw [h]; exact Muscl.modified_venkatakrishnan_envelopeSafe
  unfold Muscl.muscl_reconstruction at hx
  obtain ⟨d, hd, hdx⟩ := List.mem_map.mp hx
  have hDmax : 0 ≤ Muscl.envMax Wc W nbrs - W :=
    sub_nonneg.mpr (Muscl.le_envMax Wc nbrs W)
  have hDmin : Muscl.envMin Wc W nbrs - W ≤ 0 :=
    sub_nonpos.mpr (Muscl.envMin_le Wc nbrs W)
  obtain ⟨hlo, hhi⟩ := Muscl.alphaLoop_face_bound lim hsafe grad _ _
    hDmax hDmin df 1 (by norm_num) d hd
  rw [← hdx]
  constructor
  · linarith
  · linarith

/-- Counterexample to claim C2 as frozen: with the superbee limiter
(one of the five selectable limiters), one element with a single
neighbor of value `1`, own value `0`, gradient `(3/2, 0, 0)` and face
offset `(1, 0, 0)` reconstructs the face value `3/2`, which exceeds the
neighbor-extremum envelope maximum `1`. -/
theorem muscl_envelope_C2_counterexample :
    (3/2 : ℚ) ∈ Muscl.muscl_reconstruction Limiters.superbee
      (fun n => if n = 1 then 1 else 0) 0 [1] (3/2, 0, 0) [(1, 0, 0)] ∧
    Muscl.envMax (fun n => if n = 1 then 1 else 0) 0 [1] < 3/2 := by
  constructor
  · norm_num [Muscl.muscl_reconstruction, Muscl.envMax, Muscl.envMin,
      Muscl.alphaLoop, Muscl.dot_product, Limiters.superbee]
  · norm_num [Muscl.envMax]

/-- Witness for C2: with the minmod limiter on the concrete element of
the counterexample, the reconstructed face value stays inside the
envelope. -/
theorem muscl_envelope_C2_witness :
    ((1:ℚ) ∈ Muscl.muscl_reconstruction Limiters.minmod
      (fun n => if n = 1 then 1 else 0) 0 [1] (3/2, 0, 0) [(1, 0, 0)]) ∧
    Muscl.envMin (fun n => if n = 1 then 1 else 0) 0 [1] ≤ 1 ∧
    (1:ℚ) ≤ Muscl.envMax (fun n => if n = 1 then 1 else 0) 0 [1] := by
  have hmem : (1:ℚ) ∈ Muscl.muscl_reconstruction Limiters.minmod
      (fun n => if n = 1 then 1 else 0) 0 [1] (3/2, 0, 0) [(1, 0, 0)] := by
    norm_num [Muscl.muscl_reconstruction, Muscl.envMax, Muscl.envMin,
      Muscl.alphaLoop, Muscl.dot_product, Limiters.minmod]
  refine ⟨hmem, ?_⟩
  exact muscl_envelope_C2 Limiters.minmod (Or.inl rfl)
    (fun n => if n = 1 then 1 else 0) 0 [1] (3/2, 0, 0) [(1, 0, 0)] 1 hmem

theorem Vec5.ext_get {α : Type} {a b : Vec5 α}
    (h : ∀ v : Fin 5, a.get v = b.get v) : a = b := by
  cases a
  cases b
  have h0 := h 0
  have h1 := h 1
  have h2 := h 2
  have h3 := h 3
  have h4 := h 4
  simp only [Vec5.get] at h0 h1 h2 h3 h4
  simp_all

namespace Riemann

theorem pclamped_of_pos {gam : ℝ} {W : Vec5 ℝ} (hp : 0 < praw gam W) :
    pclamped gam W = praw gam W :=
  if_neg (not_lt.mpr hp.le)

theorem physFlux_of_pos {gam : ℝ} {W : Vec5 ℝ} (hp : 0 < praw gam W) :
    physFlux gam W = eulerFlux gam W := by
  unfold physFlux eulerFlux
  rw [pclamped_of_pos hp]

theorem soundSpeed_pos {gam : ℝ} {W : Vec5 ℝ} (hgam : 1 < gam)
    (hrho : 0 < W.x0) (hp : 0 < praw gam W) : 0 < soundSpeed gam W := by
  unfold soundSpeed
  rw [pclamped_of_pos hp]
  have hgam0 : (0:ℝ) < gam := lt_trans one_pos hgam
  exact Real.sqrt_pos.mpr (by positivity)

end Riemann

/-- Claim C1: for every conservative state `W` with positive density and
positive pressure (and a physical heat-capacity ratio `γ > 1`), each of
the three selectable Riemann solvers (Rusanov, HLL, HLLC), called with
identical left and right states `WL = WR = W`, returns exactly the
analytic Euler flux of `W` evaluated in the face-normal frame. -/
theorem riemann_consistency_C1 (gam : ℝ) (W : Vec5 ℝ) (hgam : 1 < gam)
    (hrho : 0 < W.x0) (hp : 0 < Riemann.praw gam W) :
    Riemann.rusanov W W gam = Riemann.eulerFlux gam W ∧
    Riemann.hll W W gam = Riemann.eulerFlux gam W ∧
    Riemann.hllc W W gam = Riemann.eulerFlux gam W := by
  have hF := Riemann.physFlux_of_pos hp
  have hclamp := Riemann.pclamped_of_pos hp
  have hapos := Riemann.soundSpeed_pos hgam hrho hp
  obtain ⟨w0, w1, w2, w3, w4⟩ := W
  have hrne : w0 ≠ 0 := ne_of_gt hrho
  obtain ⟨a, hadef, ha⟩ :
      ∃ a, Riemann.soundSpeed gam (Vec5.mk w0 w1 w2 w3 w4) = a ∧ 0 < a :=
    ⟨_, rfl, hapos⟩
  have hane : a ≠ 0 := ne_of_gt ha
  obtain ⟨p, hpdef⟩ :
      ∃ p, Riemann.praw gam (Vec5.mk w0 w1 w2 w3 w4) = p := ⟨_, rfl⟩
  rw [hpdef] at hclamp
  refine ⟨?_, ?_, ?_⟩
  · unfold Riemann.rusanov
    rw [hF]
    apply Vec5.ext_get
    intro v
    fin_cases v <;>
      · simp only [Vec5.ofFn, Vec5.get]
        ring
  · unfold Riemann.hll
    rw [hF, hadef]
    simp only [min_self, max_self]
    split
    · rfl
    · split
      · rfl
      · have hne : w1 / w0 + a - (w1 / w0 - a) ≠ 0 := by
          intro hcon
          exact hane (by linarith)
        apply Vec5.ext_get
        intro v
        fin_cases v <;>
          · simp only [Vec5.ofFn, Vec5.get]
            rw [div_eq_iff hne]
            ring
  · unfold Riemann.hllc
    rw [hF, hadef, hclamp]
    simp only [min_self, max_self]
    split
    · rfl
    · split
      · rfl
      · have e1 : w1 / w0 - a - w1 / w0 = -a := by ring
        have e2 : w1 / w0 + a - w1 / w0 = a := by ring
        rw [e1, e2]
        have hden : w0 * -a - w0 * a ≠ 0 := by
          intro hcon
          exact mul_ne_zero hrne hane (by linarith)
        have eSM : (p - p + w1 * -a - w1 * a) / (w0 * -a - w0 * a) =
            w1 / w0 := by
          rw [div_eq_div_iff hden hrne]
          ring
        rw [eSM]
        have ePM : 1 / 2 * (p + p + w0 * -a * (w1 / w0 - w1 / w0) +
            w0 * a * (w1 / w0 - w1 / w0)) = p := by ring
        rw [ePM, e1, e2]
        have hnane : -a ≠ 0 := neg_ne_zero.mpr hane
        split
        · apply Vec5.ext_get
          intro v
          fin_cases v <;>
            · simp only [Vec5.ofFn, Vec5.get, Riemann.eulerFlux, hpdef]
              rw [div_eq_iff hnane]
              field_simp
              ring
        · apply Vec5.ext_get
          intro v
          fin_cases v <;>
            · simp only [Vec5.ofFn, Vec5.get, Riemann.eulerFlux, hpdef]
              rw [div_eq_iff hane]
              field_simp
              ring

/-- Witness for C1: the consistency property at the concrete state
`W = (1, 0, 0, 0, 3/2)` with `γ = 3` (pressure `3 > 0`). -/
theorem riemann_consistency_C1_witness :
    (1 < (3:ℝ)) ∧ (0 < (Vec5.mk (1:ℝ) 0 0 0 (3/2)).x0) ∧
    (0 < Riemann.praw 3 (Vec5.mk (1:ℝ) 0 0 0 (3/2))) ∧
    (Riemann.rusanov (Vec5.mk (1:ℝ) 0 0 0 (3/2)) (Vec5.mk 1 0 0 0 (3/2)) 3 =
      Riemann.eulerFlux 3 (Vec5.mk 1 0 0 0 (3/2)) ∧
     Riemann.hll (Vec5.mk (1:ℝ) 0 0 0 (3/2)) (Vec5.mk 1 0 0 0 (3/2)) 3 =
      Riemann.eulerFlux 3 (Vec5.mk 1 0 0 0 (3/2)) ∧
     Riemann.hllc (Vec5.mk (1:ℝ) 0 0 0 (3/2)) (Vec5.mk 1 0 0 0 (3/2)) 3 =
      Riemann.eulerFlux 3 (Vec5.mk 1 0 0 0 (3/2))) :=
  ⟨by norm_num, by norm_num,
   by norm_num [Riemann.praw],
   riemann_consistency_C1 3 (Vec5.mk 1 0 0 0 (3/2)) (by norm_num)
     (by norm_num) (by norm_num [Riemann.praw])⟩

namespace Corrections

/-- A list of nonnegative rationals containing a positive member has a
positive sum. -/
theorem sum_pos_of_mem_pos (l : List ℚ) (h0 : ∀ y ∈ l, 0 ≤ y)
    (x : ℚ) (hx : x ∈ l) (hxp : 0 < x) : 0 < l.sum := by
  induction l with
  | nil => exact absurd hx (List.not_mem_nil x)
  | cons a rest ih =>
      rw [List.sum_cons]
      rcases List.mem_cons.mp hx with hxa | hxr
      · subst hxa
        have : (0:ℚ) ≤ rest.sum :=
          List.sum_nonneg fun y hy => h0 y (List.mem_cons_of_mem _ hy)
        linarith
      · have ha : 0 ≤ a := h0 a (List.mem_cons_self a rest)
        have := ih (fun y hy => h0 y (List.mem_cons_of_mem _ hy)) hxr
        linarith

theorem validState_rho_nonneg {W : Vec5 ℚ} (h : validState W = true) :
    0 ≤ W.x0 := by
  unfold validState at h
  rw [Bool.not_eq_true'] at h
  simp only [Bool.or_eq_false_iff, decide_eq_false_iff_not, not_lt] at h
  exact h.1

end Corrections

/-- Claim C4: a flagged element (here: one whose state fails the
physical-validity test, e.g. negative density), having at least one
in-range face neighbor whose previous-iteration state is valid with
positive density, has its state replaced by the componentwise unweighted
average of the valid previous-iteration face-neighbor states — a convex
combination with equal weights `1/den` — and its new density is
positive. -/
theorem corrections_average_C4 (mesh : Corrections.Mesh)
    (W Wold : ℤ → Vec5 ℚ) (i : ℤ) (elem : Corrections.Element) (j : ℤ)
    (hflag : Corrections.flagged (W i) = true)
    (hj : j ∈ elem.neighbors) (hj0 : 0 ≤ j)
    (hjvalid : Corrections.validState (Wold j) = true)
    (hjrho : 0 < (Wold j).x0) :
    Corrections.correctElement mesh W Wold i elem =
      some (Vec5.ofFn fun v =>
        ((Corrections.validNeighbors Wold elem.neighbors).map
          fun n => (Wold n).get v).sum /
        ((Corrections.validNeighbors Wold elem.neighbors).length : ℚ)) ∧
    0 < (Vec5.ofFn fun v =>
        ((Corrections.validNeighbors Wold elem.neighbors).map
          fun n => (Wold n).get v).sum /
        ((Corrections.validNeighbors Wold elem.neighbors).length : ℚ)).x0 := by
  set V := Corrections.validNeighbors Wold elem.neighbors with hV
  have hjV : j ∈ V := by
    rw [hV]
    unfold Corrections.validNeighbors
    rw [List.mem_filter]
    exact ⟨hj, by simp [hj0, hjvalid]⟩
  have hVne : V.length ≠ 0 := by
    intro hlen
    rw [List.length_eq_zero] at hlen
    rw [hlen] at hjV
    exact List.not_mem_nil j hjV
  constructor
  · unfold Corrections.correctElement
    rw [if_pos hflag, ← hV, if_pos hVne]
  · have hx0 : (Vec5.ofFn fun v =>
        (V.map fun n => (Wold n).get v).sum / (V.length : ℚ)).x0 =
        (V.map fun n => (Wold n).x0).sum / (V.length : ℚ) := rfl
    rw [hx0]
    have hlenpos : (0:ℚ) < (V.length : ℚ) := by
      have : 0 < V.length := Nat.pos_of_ne_zero hVne
      exact_mod_cast this
    have hsum : 0 < (V.map fun n => (Wold n).x0).sum := by
      apply Corrections.sum_pos_of_mem_pos _ _ ((Wold j).x0)
      · exact List.mem_map_of_mem _ hjV
      · exact hjrho
      · intro y hy
        obtain ⟨n, hn, hny⟩ := List.mem_map.mp hy
        have hnval : Corrections.validState (Wold n) = true := by
          rw [hV] at hn
          unfold Corrections.validNeighbors at hn
          exact (Bool.and_elim_right
            (List.mem_filter.mp hn).2)
        rw [← hny]
        exact Corrections.validState_rho_nonneg hnval
    exact div_pos hsum hlenpos

/-- Witness for C4: on the concrete mesh, element 0 (negative density)
is flagged, its neighbor 1 is valid with positive density, and the
correction replaces its state by the neighbor average, with positive
resulting density. -/
theorem corrections_average_C4_witness :
    (Corrections.flagged (cW4 0) = true ∧ (1:ℤ) ∈ Corrections.Element.neighbors ⟨[1, -1]⟩ ∧
     (0:ℤ) ≤ 1 ∧ Corrections.validState (cWold4 1) = true ∧
     0 < (cWold4 1).x0) ∧
    (Corrections.correctElement cMesh4 cW4 cWold4 0 ⟨[1, -1]⟩ =
      some (Vec5.ofFn fun v =>
        ((Corrections.validNeighbors cWold4
            (Corrections.Element.neighbors ⟨[1, -1]⟩)).map
          fun n => (cWold4 n).get v).sum /
        ((Corrections.validNeighbors cWold4
            (Corrections.Element.neighbors ⟨[1, -1]⟩)).length : ℚ)) ∧
     0 < (Vec5.ofFn fun v =>
        ((Corrections.validNeighbors cWold4
            (Corrections.Element.neighbors ⟨[1, -1]⟩)).map
          fun n => (cWold4 n).get v).sum /
        ((Corrections.validNeighbors cWold4
            (Corrections.Element.neighbors ⟨[1, -1]⟩)).length : ℚ)).x0) :=
  ⟨⟨by norm_num [Corrections.flagged, Corrections.kin, cW4], by decide,
    by decide, by norm_num [Corrections.validState, Corrections.kin, cWold4],
    by norm_num [cWold4]⟩,
   corrections_average_C4 cMesh4 cW4 cWold4 0 ⟨[1, -1]⟩ 1
     (by norm_num [Corrections.flagged, Corrections.kin, cW4]) (by decide)
     (by decide)
     (by norm_num [Corrections.validState, Corrections.kin, cWold4])
     (by norm_num [cWold4])⟩

/-- Claim C5: a call to `apply_corrections` whose correction loop
completes (no out-of-bounds fault) throws the fatal error if and only if
the number of corrected elements exceeds 10% of the total number of
boundary faces of the mesh (`corrections > 0.1 * mesh.n_boundaries`,
i.e. `10 * corrections > n_boundaries` in exact arithmetic); at or
below the threshold the call returns normally with the corrected
states. -/
theorem corrections_threshold_C5 (mesh : Corrections.Mesh)
    (W Wold : ℤ → Vec5 ℚ) (Wnew : List (Vec5 ℚ))
    (hok : Corrections.correctList mesh W Wold mesh.elements 0 = some Wnew) :
    (10 * (Corrections.countCorrections W mesh.elements.length : ℤ) >
        mesh.n_boundaries →
      Corrections.apply_corrections mesh W Wold =
        .fatalError (Corrections.countCorrections W mesh.elements.length)) ∧
    (10 * (Corrections.countCorrections W mesh.elements.length : ℤ) ≤
        mesh.n_boundaries →
      Corrections.apply_corrections mesh W Wold =
        .ok Wnew (Corrections.countCorrections W mesh.elements.length)) := by
  have hcond : ∀ c : ℕ,
      ((c : ℚ) > (1/10) * (mesh.n_boundaries : ℚ) ↔
        10 * (c : ℤ) > mesh.n_boundaries) := by
    intro c
    rw [gt_iff_lt, gt_iff_lt]
    constructor
    · intro h
      have h10 : (mesh.n_boundaries : ℚ) < 10 * (c : ℚ) := by linarith
      exact_mod_cast h10
    · intro h
      have h10 : (mesh.n_boundaries : ℚ) < 10 * (c : ℚ) := by exact_mod_cast h
      linarith
  constructor
  · intro h
    unfold Corrections.apply_corrections
    rw [hok]
    dsimp only
    rw [if_pos ((hcond _).mpr h)]
  · intro h
    unfold Corrections.apply_corrections
    rw [hok]
    dsimp only
    rw [if_neg (fun hc => absurd ((hcond _).mp hc) (not_lt.mpr h))]

/-- Witness for C5: on the concrete mesh (4 boundary faces), one
corrected element exceeds the 10% threshold (`10 * 1 > 4`) and the call
throws the fatal error. -/
theorem corrections_threshold_C5_witness :
    (Corrections.correctList cMesh4 cW4 cWold4 cMesh4.elements 0 =
      some [⟨2, 0, 0, 0, 1⟩, ⟨2, 0, 0, 0, 1⟩]) ∧
    (10 * (Corrections.countCorrections cW4 cMesh4.elements.length : ℤ) >
      cMesh4.n_boundaries) ∧
    Corrections.apply_corrections cMesh4 cW4 cWold4 =
      .fatalError (Corrections.countCorrections cW4 cMesh4.elements.length) :=
  by
  have hok : Corrections.correctList cMesh4 cW4 cWold4 cMesh4.elements 0 =
      some [⟨2, 0, 0, 0, 1⟩, ⟨2, 0, 0, 0, 1⟩] := by
    norm_num [cMesh4, cW4, cWold4, Corrections.correctList,
      Corrections.correctElement, Corrections.validNeighbors,
      Corrections.validState, Corrections.flagged, Corrections.kin,
      Corrections.secondRing, Corrections.getElemZ, Vec5.ofFn, Vec5.get,
      List.filter]
  have hcount : Corrections.countCorrections cW4 cMesh4.elements.length = 1 := by
    norm_num [Corrections.countCorrections, cMesh4, cW4, List.range_succ,
      Corrections.flagged, Corrections.kin, List.filter]
  refine ⟨hok, ?_, ?_⟩
  · rw [hcount]
    norm_num [cMesh4]
  · exact (corrections_threshold_C5 cMesh4 cW4 cWold4
      [⟨2, 0, 0, 0, 1⟩, ⟨2, 0, 0, 0, 1⟩] hok).1
      (by rw [hcount]; norm_num [cMesh4])

/-- Claim C10: contrary to the claim, the second-ring fallback of
`apply_corrections` does perform the element-array lookup with a
negative neighbor index: on the concrete mesh, the flagged element 0 has
no valid immediate neighbor, the fallback reads `mesh.elements[-1]`
(the boundary entry of its neighbor list) before the `n < 0` guard, and
the out-of-bounds branch of the embedded element access is reached. -/
theorem corrections_oob_C10 :
    Corrections.getElemZ cMesh10.elements (-1) = none ∧
    Corrections.secondRing cMesh10 cWold10 [-1, 1] = none ∧
    Corrections.apply_corrections cMesh10 cW10 cWold10 =
      Corrections.CorrOutcome.outOfBounds := by
  refine ⟨by decide, ?_, ?_⟩
  · norm_num [cMesh10, cWold10, Corrections.secondRing, Corrections.getElemZ,
      Corrections.validNeighbors, Corrections.validState, Corrections.kin,
      List.filter]
  · norm_num [Corrections.apply_corrections, cMesh10, cW10, cWold10,
      Corrections.correctList, Corrections.correctElement,
      Corrections.validNeighbors, Corrections.validState,
      Corrections.flagged, Corrections.kin, Corrections.secondRing,
      Corrections.getElemZ, List.filter]

/-- Claim C7: for a boundary face whose type is wall, symmetry, slip-wall
or moving-wall, one call of the boundary loop body dispatches all four
types to the same implementation (`bc::symmetry`) and — given that the
face's mass- and energy-flux slots hold their initial value `0` (set by
`Fields::init` and never written for such faces) — leaves zero mass and
energy flux and a momentum flux equal to the face pressure times the
outward unit normal, scaled by the face area. -/
theorem wall_bc_flux_C7 (gam : ℚ) (t : Boundaries.BCType)
    (ht : t = .WALL ∨ t = .SYMMETRY ∨ t = .SLIPWALL ∨ t = .MOVING_WALL)
    (face : Boundaries.Face) (Wf F : Vec5 ℚ)
    (hF0 : F.x0 = 0) (hF4 : F.x4 = 0) :
    Boundaries.apply_bc_face gam t face Wf F =
      some ⟨0,
        Boundaries.facePressure gam Wf * face.normal.1 * face.area,
        Boundaries.facePressure gam Wf * face.normal.2.1 * face.area,
        Boundaries.facePressure gam Wf * face.normal.2.2 * face.area,
        0⟩ := by
  have hbody : Boundaries.apply_bc_face gam t face Wf F =
      some (Vec5.ofFn fun v =>
        (Boundaries.symmetry gam face Wf F).get v * face.area) := by
    rcases ht with h | h | h | h <;> (subst h; rfl)
  rw [hbody]
  unfold Boundaries.symmetry
  simp only [Vec5.ofFn, Vec5.get, hF0, hF4, zero_mul]

/-- Witness for C7: the wall treatment on a concrete face (area 2,
normal `(1,0,0)`) with face state `(1,0,0,0,1)` and zero incoming
mass/energy flux slots. -/
theorem wall_bc_flux_C7_witness :
    ((Vec5.mk (0:ℚ) 5 6 7 0).x0 = 0 ∧ (Vec5.mk (0:ℚ) 5 6 7 0).x4 = 0) ∧
    Boundaries.apply_bc_face 3 .WALL ⟨2, (1, 0, 0)⟩
      (Vec5.mk 1 0 0 0 1) (Vec5.mk 0 5 6 7 0) =
      some ⟨0,
        Boundaries.facePressure 3 (Vec5.mk 1 0 0 0 1) * (1:ℚ) * 2,
        Boundaries.facePressure 3 (Vec5.mk 1 0 0 0 1) * (0:ℚ) * 2,
        Boundaries.facePressure 3 (Vec5.mk 1 0 0 0 1) * (0:ℚ) * 2,
        0⟩ :=
  ⟨⟨rfl, rfl⟩,
   wall_bc_flux_C7 3 .WALL (Or.inl rfl) ⟨2, (1, 0, 0)⟩
     (Vec5.mk 1 0 0 0 1) (Vec5.mk 0 5 6 7 0) rfl rfl⟩

namespace Update

theorem advanceList_getElem (F : ℤ → Vec5 ℚ) (coef dt : ℚ)
    (Wold S : ℕ → Vec5 ℚ) :
    ∀ (l : List Element) (k i : ℕ) (e : Element), l.get? i = some e →
      (advanceList F coef dt Wold S l k).get? i =
        some (elemAdvance F coef dt (Wold (k + i)) (S (k + i)) e) := by
  intro l
  induction l with
  | nil => intro k i e he; simp at he
  | cons e0 rest ih =>
      intro k i e he
      cases i with
      | zero =>
          rw [List.get?_cons_zero] at he
          cases he
          rw [advanceList, List.get?_cons_zero, Nat.add_zero]
      | succ j =>
          rw [List.get?_cons_succ] at he
          have h := ih (k + 1) j e he
          have hk : k + 1 + j = k + (j + 1) := by omega
          rw [hk] at h
          rw [advanceList, List.get?_cons_succ, h]

end Update

/-- Claim C8: one call to `advance_solution` sets, for every element `i`
and every variable, the new state to
`Wold + a[s] * dt / volume * (S − Σ face fluxes)` where `a[s]` is the
coefficient of the current stage `s`, and the stage counter (threaded
explicitly here, a function-local static in the source) advances by one
modulo the configured number of stages on each call. -/
theorem advance_solution_C8 (elements : List Update.Element)
    (Wold S : ℕ → Vec5 ℚ) (F : ℤ → Vec5 ℚ) (dt : ℚ) (a : List ℚ)
    (time_stages : ℕ) (it : ℕ) (i : ℕ) (e : Update.Element)
    (he : elements.get? i = some e) :
    (Update.advance_solution elements Wold S F dt a time_stages it).1.get? i =
      some (Vec5.ofFn fun v =>
              (S i).get v - (e.faces.map fun j => (F j).get v).sum,
            Vec5.ofFn fun v =>
              (Wold i).get v + a.getD it 0 * dt / e.volume *
                ((S i).get v - (e.faces.map fun j => (F j).get v).sum)) ∧
    (Update.advance_solution elements Wold S F dt a time_stages it).2 =
      (it + 1) % time_stages := by
  constructor
  · have h := Update.advanceList_getElem F (a.getD it 0) dt Wold S
      elements 0 i e he
    rw [Nat.zero_add] at h
    rw [Update.advance_solution]
    rw [h]
    rfl
  · rfl

/-- Witness for C8: the update formula and the counter increment on a
concrete one-element mesh (faces `[0, 1]`, volume 2, `a = [1/2, 1/4]`,
stage 0 of 2). -/
theorem advance_solution_C8_witness :
    (Update.advance_solution [⟨[0, 1], 2⟩] (fun _ => ⟨1, 1, 1, 1, 1⟩)
        (fun _ => ⟨0, 0, 0, 0, 0⟩) cF8 1 [1/2, 1/4] 2 0).1.get? 0 =
      some (Vec5.ofFn fun v =>
              ((fun _ : ℕ => (⟨0, 0, 0, 0, 0⟩ : Vec5 ℚ)) 0).get v -
                ((Update.Element.faces ⟨[0, 1], 2⟩).map
                  fun j => (cF8 j).get v).sum,
            Vec5.ofFn fun v =>
              ((fun _ : ℕ => (⟨1, 1, 1, 1, 1⟩ : Vec5 ℚ)) 0).get v +
                [1/2, 1/4].getD 0 0 * 1 /
                  (Update.Element.volume ⟨[0, 1], 2⟩) *
                (((fun _ : ℕ => (⟨0, 0, 0, 0, 0⟩ : Vec5 ℚ)) 0).get v -
                  ((Update.Element.faces ⟨[0, 1], 2⟩).map
                    fun j => (cF8 j).get v).sum)) ∧
    (Update.advance_solution [⟨[0, 1], 2⟩] (fun _ => ⟨1, 1, 1, 1, 1⟩)
        (fun _ => ⟨0, 0, 0, 0, 0⟩) cF8 1 [1/2, 1/4] 2 0).2 = (0 + 1) % 2 :=
  advance_solution_C8 [⟨[0, 1], 2⟩] (fun _ => ⟨1, 1, 1, 1, 1⟩)
    (fun _ => ⟨0, 0, 0, 0, 0⟩) cF8 1 [1/2, 1/4] 2 0 0 ⟨[0, 1], 2⟩ rfl

namespace Timestep

/-- A `max`-fold is at least its initial value. -/
theorem foldl_max_le {α : Type} (g : α → ℝ) :
    ∀ (l : List α) (x : ℝ), x ≤ l.foldl (fun acc y => max acc (g y)) x := by
  intro l
  induction l with
  | nil => intro x; exact le_refl x
  | cons y rest ih =>
      intro x
      rw [List.foldl_cons]
      exact le_trans (le_max_left x (g y)) (ih _)

/-- A `max`-fold dominates the contribution of every list member. -/
theorem foldl_max_ge_mem {α : Type} (g : α → ℝ) :
    ∀ (l : List α) (x : ℝ) (y : α), y ∈ l →
      g y ≤ l.foldl (fun acc z => max acc (g z)) x := by
  intro l
  induction l with
  | nil => intro x y hy; exact absurd hy (List.not_mem_nil y)
  | cons z rest ih =>
      intro x y hy
      rw [List.foldl_cons]
      rcases List.mem_cons.mp hy with hz | hm
      · subst hz
        exact le_trans (le_max_right x (g y)) (foldl_max_le g rest _)
      · exact ih _ y hm

/-- A `max`-fold equals its initial value or one of the member
contributions. -/
theorem foldl_max_cases {α : Type} (g : α → ℝ) :
    ∀ (l : List α) (x : ℝ),
      l.foldl (fun acc y => max acc (g y)) x = x ∨
      ∃ y ∈ l, l.foldl (fun acc z => max acc (g z)) x = g y := by
  intro l
  induction l with
  | nil => intro x; exact Or.inl rfl
  | cons z rest ih =>
      intro x
      rw [List.foldl_cons]
      rcases ih (max x (g z)) with h | ⟨y, hy, hres⟩
      · rw [h]
        rcases max_cases x (g z) with ⟨h1, _⟩ | ⟨h1, _⟩
        · exact Or.inl h1
        · exact Or.inr ⟨z, List.mem_cons_self z rest, h1⟩
      · exact Or.inr ⟨y, List.mem_cons_of_mem z hy, hres⟩

/-- The fold `varLoop` is at least its initial accumulator. -/
theorem varLoop_le (faces : ℤ → Face) (gam : ℝ) (W : ℕ → Vec5 ℝ) :
    ∀ (l : List Element) (k : ℕ) (x : ℝ), x ≤ varLoop faces gam W l k x := by
  intro l
  induction l with
  | nil => intro k x; exact le_refl x
  | cons e rest ih =>
      intro k x
      rw [varLoop]
      exact le_trans (le_max_left _ _) (ih _ _)

/-- The fold `varLoop` dominates every element's wave-speed density. -/
theorem varLoop_ge (faces : ℤ → Face) (gam : ℝ) (W : ℕ → Vec5 ℝ) :
    ∀ (l : List Element) (k : ℕ) (x : ℝ) (i : ℕ) (e : Element),
      l.get? i = some e →
      elemSpeed faces gam (W (k + i)) e ≤ varLoop faces gam W l k x := by
  intro l
  induction l with
  | nil => intro k x i e he; simp at he
  | cons e0 rest ih =>
      intro k x i e he
      cases i with
      | zero =>
          rw [List.get?_cons_zero] at he
          cases he
          rw [varLoop, Nat.add_zero]
          exact le_trans (le_max_right _ _)
            (varLoop_le faces gam W rest (k + 1) _)
      | succ j =>
          rw [List.get?_cons_succ] at he
          have h := ih (k + 1) (max x (elemSpeed faces gam (W k) e0)) j e he
          have hk : k + 1 + j = k + (j + 1) := by omega
          rw [hk] at h
          rw [varLoop]
          exact h

/-- The fold `varLoop` equals its initial accumulator or one of the element
wave-speed densities. -/
theorem varLoop_cases (faces : ℤ → Face) (gam : ℝ) (W : ℕ → Vec5 ℝ) :
    ∀ (l : List Element) (k : ℕ) (x : ℝ),
      varLoop faces gam W l k x = x ∨
      ∃ (i : ℕ) (e : Element), l.get? i = some e ∧
        varLoop faces gam W l k x = elemSpeed faces gam (W (k + i)) e := by
  intro l
  induction l with
  | nil => intro k x; exact Or.inl rfl
  | cons e0 rest ih =>
      intro k x
      rw [varLoop]
      rcases ih (k + 1) (max x (elemSpeed faces gam (W k) e0)) with
        h | ⟨i, e, he, hres⟩
      · rw [h]
        rcases max_cases x (elemSpeed faces gam (W k) e0) with ⟨h1, _⟩ | ⟨h1, _⟩
        · exact Or.inl h1
        · exact Or.inr ⟨0, e0, List.get?_cons_zero, by rw [h1, Nat.add_zero]⟩
      · refine Or.inr ⟨i + 1, e, by rw [List.get?_cons_succ]; exact he, ?_⟩
        rw [hres]
        have hk : k + 1 + i = k + (i + 1) := by omega
        rw [hk]

end Timestep

/-- Claim C9: the function `update_timestep` sets `dt = CFL / var` where `var` is the
maximum over all elements (and attained at one of them) of the maximum
over the element's faces of `face area × (normal velocity + sound
speed)` divided by the element volume; the timestep is added to the
accumulated simulation time, and if the accumulated time would exceed
the configured maximum it is clamped to that maximum with `dt`
shortened by exactly the overshoot.  (Positive element volumes, and a
positive maximum, as guaranteed by the mesh volume floor and a physical
state.) -/
theorem update_timestep_C9 (elements : List Timestep.Element)
    (faces : ℤ → Timestep.Face) (gam cfl time maxtime : ℝ)
    (W : ℕ → Vec5 ℝ)
    (hvol : ∀ (i : ℕ) (e : Timestep.Element), elements.get? i = some e →
      0 < e.volume)
    (hpos : 0 < Timestep.varLoop faces gam W elements 0 0) :
    ((∀ (i : ℕ) (e : Timestep.Element), elements.get? i = some e →
        ∀ fi ∈ e.faces,
          Timestep.faceSpeed faces gam (W i) fi / e.volume ≤
            Timestep.varLoop faces gam W elements 0 0) ∧
     (∃ (i : ℕ) (e : Timestep.Element), elements.get? i = some e ∧
        ∃ fi ∈ e.faces,
          Timestep.varLoop faces gam W elements 0 0 =
            Timestep.faceSpeed faces gam (W i) fi / e.volume)) ∧
    ((time + cfl / Timestep.varLoop faces gam W elements 0 0 ≤ maxtime →
        Timestep.update_timestep elements faces gam W cfl time maxtime =
          (cfl / Timestep.varLoop faces gam W elements 0 0,
           time + cfl / Timestep.varLoop faces gam W elements 0 0)) ∧
     (maxtime < time + cfl / Timestep.varLoop faces gam W elements 0 0 →
        Timestep.update_timestep elements faces gam W cfl time maxtime =
          (cfl / Timestep.varLoop faces gam W elements 0 0 -
            (time + cfl / Timestep.varLoop faces gam W elements 0 0 -
              maxtime),
           maxtime))) := by
  constructor
  · constructor
    · intro i e he fi hfi
      have h1 : Timestep.faceSpeed faces gam (W i) fi ≤
          e.faces.foldl
            (fun acc z => max acc (Timestep.faceSpeed faces gam (W i) z)) 0 :=
        Timestep.foldl_max_ge_mem _ e.faces 0 fi hfi
      have h2 : Timestep.faceSpeed faces gam (W i) fi / e.volume ≤
          Timestep.elemSpeed faces gam (W i) e := by
        unfold Timestep.elemSpeed
        exact (div_le_div_iff_of_pos_right (hvol i e he)).mpr h1
      have h3 := Timestep.varLoop_ge faces gam W elements 0 0 i e he
      rw [Nat.zero_add] at h3
      exact le_trans h2 h3
    · rcases Timestep.varLoop_cases faces gam W elements 0 0 with
        h0 | ⟨i, e, he, hres⟩
      · rw [h0] at hpos
        exact absurd hpos (lt_irrefl 0)
      · rw [Nat.zero_add] at hres
        rcases Timestep.foldl_max_cases
            (Timestep.faceSpeed faces gam (W i)) e.faces 0 with hf0 | ⟨fi, hfi, hfr⟩
        · exfalso
          rw [hres] at hpos
          unfold Timestep.elemSpeed at hpos
          rw [hf0] at hpos
          rw [zero_div] at hpos
          exact absurd hpos (lt_irrefl 0)
        · refine ⟨i, e, he, fi, hfi, ?_⟩
          rw [hres]
          unfold Timestep.elemSpeed
          rw [hfr]
  · constructor
    · intro h
      unfold Timestep.update_timestep
      rw [if_neg (not_lt.mpr h)]
    · intro h
      unfold Timestep.update_timestep
      rw [if_pos h]

theorem cVar9_eq : Timestep.varLoop cFaces9 3 cW9 cElems9 0 0 = 4 := by
  have hs : Timestep.sound 3 (Vec5.mk (1:ℝ) 1 0 0 2) = Real.sqrt 9 := by
    simp only [Timestep.sound]
    norm_num
  have hs3 : Timestep.sound 3 (Vec5.mk (1:ℝ) 1 0 0 2) = 3 := by
    rw [hs, show (9:ℝ) = 3 ^ 2 by norm_num]
    exact Real.sqrt_sq (by norm_num)
  have hface : Timestep.faceSpeed cFaces9 3 (cW9 0) 0 = 4 := by
    simp only [Timestep.faceSpeed, cFaces9, cW9]
    rw [hs3]
    norm_num
  rw [cElems9, Timestep.varLoop, Timestep.varLoop]
  simp only [Timestep.elemSpeed, List.foldl_cons, List.foldl_nil]
  rw [hface]
  norm_num

/-- Witness for C9: on the concrete one-element mesh the wave-speed
maximum is `4 > 0`, and with `CFL = 8`, `time = 0`, `maxtime = 100` the
call returns `dt = CFL / 4` and accumulates the time without
clamping. -/
theorem update_timestep_C9_witness :
    (0 < Timestep.varLoop cFaces9 3 cW9 cElems9 0 0) ∧
    Timestep.update_timestep cElems9 cFaces9 3 cW9 8 0 100 =
      (8 / Timestep.varLoop cFaces9 3 cW9 cElems9 0 0,
       0 + 8 / Timestep.varLoop cFaces9 3 cW9 cElems9 0 0) := by
  have hvar := cVar9_eq
  have hvol : ∀ (i : ℕ) (e : Timestep.Element), cElems9.get? i = some e →
      0 < e.volume := by
    intro i e he
    cases i with
    | zero =>
        rw [cElems9, List.get?_cons_zero] at he
        cases he
        exact one_pos
    | succ j =>
        rw [cElems9, List.get?_cons_succ] at he
        simp at he
  have hpos : 0 < Timestep.varLoop cFaces9 3 cW9 cElems9 0 0 := by
    rw [hvar]
    norm_num
  refine ⟨hpos, ?_⟩
  exact (update_timestep_C9 cElems9 cFaces9 3 8 0 100 cW9 hvol hpos).2.1
    (by rw [hvar]; norm_num)

/-- Claim C6: the code contradicts the claim: `init_supersonic_inlet`
does not convert the flow-direction angles from degrees to radians.
At the boundary definition `M = 1`, `p = 1`, `T = 1`, `alpha = 90`,
`phi = 0` with `R = 1`, `γ = 4` (so `V = 2`), the degree
interpretation prescribed by the spec gives a first velocity component
`V·cos(90°) = 0`, while the code computes `V·cos(90 rad) ≠ 0`. -/
theorem supersonic_inlet_angles_C6 :
    (SupersonicInlet.init_supersonic_inlet 1 4 ⟨1, 1, 1, 90, 0⟩).x1 ≠
      (SupersonicInlet.init_supersonic_inlet_spec 1 4 ⟨1, 1, 1, 90, 0⟩).x1 ∧
    (SupersonicInlet.init_supersonic_inlet_spec 1 4 ⟨1, 1, 1, 90, 0⟩).x1 =
      0 := by
  have hsqrt : Real.sqrt (4 * 1 * 1) = 2 := by
    rw [show (4:ℝ) * 1 * 1 = 2 ^ 2 by norm_num]
    exact Real.sqrt_sq (by norm_num)
  have hcode : (SupersonicInlet.init_supersonic_inlet 1 4
      ⟨1, 1, 1, 90, 0⟩).x1 = 2 * Real.cos 90 := by
    simp only [SupersonicInlet.init_supersonic_inlet]
    rw [hsqrt, Real.cos_zero]
    ring
  have hspec : (SupersonicInlet.init_supersonic_inlet_spec 1 4
      ⟨1, 1, 1, 90, 0⟩).x1 = 0 := by
    simp only [SupersonicInlet.init_supersonic_inlet_spec]
    rw [show (90:ℝ) * Real.pi / 180 = Real.pi / 2 by ring,
      Real.cos_pi_div_two]
    ring
  have hne : Real.cos 90 ≠ 0 := by
    intro h
    obtain ⟨k, hk⟩ := Real.cos_eq_zero_iff.mp h
    have hkz : (2 * k + 1 : ℤ) ≠ 0 := by omega
    have hkz' : ((2 * k + 1 : ℤ) : ℝ) ≠ 0 := Int.cast_ne_zero.mpr hkz
    have hpi : Real.pi = 180 / ((2 * k + 1 : ℤ) : ℝ) := by
      rw [eq_div_iff hkz']
      push_cast
      linear_combination (-2 : ℝ) * hk
    exact irrational_pi ⟨180 / (2 * (k : ℚ) + 1), by
      rw [hpi]
      push_cast
      ring⟩
  refine ⟨?_, hspec⟩
  rw [hcode, hspec]
  intro hcon
  exact hne (by linarith)

end EulerCPP